import Mathlib

/-!
Verification of the chatmaster-app real-time relay layer against its
natural-language specification.  The definitions below are shallow
embeddings of the JavaScript source:

* `src/server/sockets/socketHandler.js` — connection/presence handling,
  message send, typing indicators, read receipts, call signaling;
* the Message model (unnamed part_009) — reaction, read-receipt, edit and
  delete document methods;
* `src/server/models/Chat.js` — `isParticipant` / `isAdmin`;
* the message history route (unnamed part_006).

Identities, connections, chats, calls and timestamps are modelled as `Nat`;
emitted socket events are modelled as explicit `Emission` values recording
the target (originating connection, a chat room with or without the sender,
or a user's personal room), the event name, and the correlation id
(`tempId`) carried in the payload, when any.
-/

namespace ChatMaster

/-! ## Socket emissions

`io.to('chat_c').emit(...)` targets the whole room (`Target.room`);
`socket.to('chat_c').emit(...)` targets the room excluding the emitting
socket (`Target.roomOthers`); `io.to('user_u').emit(...)` targets a user's
personal room (`Target.user`); `socket.emit(...)` targets the originating
connection (`Target.caller`). -/

inductive Target where
  | caller : Target
  | room : Nat → Target
  | roomOthers : Nat → Target
  | user : Nat → Target
deriving DecidableEq, Repr

structure Emission where
  target : Target
  event : String
  tempId : Option Nat
deriving DecidableEq, Repr

/-! ## Presence table (socketHandler.js lines 7, 40–55, 533–545)

`activeUsers` is a `Map` from user id to `{ socketId, user }`: the
connection handler does `activeUsers.set(socket.userId, {socketId, user})`
and the disconnect handler does `activeUsers.delete(socket.userId)`, both
keyed by the user id only.  We track the key set of that map together with
the set of live transport connections, as pairs `(socketId, userId)`. -/

structure PresenceState where
  activeUsers : List Nat
  liveConns : List (Nat × Nat)
deriving DecidableEq, Repr

def initPresence : PresenceState := ⟨[], []⟩

inductive PresenceEvent where
  | connect (userId connId : Nat)
  | disconnect (userId connId : Nat)
deriving DecidableEq, Repr

/-- One step of the presence table.  On connect the user id is set in
`activeUsers` (`Map.set`: at most one entry per user id) and the socket
becomes live; on disconnect the socket dies and the user id is deleted
from `activeUsers` unconditionally (lines 544–545). -/
def presenceStep (s : PresenceState) : PresenceEvent → PresenceState
  | .connect u c =>
      { activeUsers := if u ∈ s.activeUsers then s.activeUsers else u :: s.activeUsers,
        liveConns := (c, u) :: s.liveConns }
  | .disconnect u c =>
      { activeUsers := s.activeUsers.filter (fun v => v ≠ u),
        liveConns := s.liveConns.filter (fun p => p.1 ≠ c) }

def runPresence (es : List PresenceEvent) : PresenceState :=
  es.foldl presenceStep initPresence

/-- `activeUsers.has(u)` — what the handler consults for "online". -/
def isOnline (s : PresenceState) (u : Nat) : Bool :=
  s.activeUsers.contains u

/-- The socket ids of the live transport connections of identity `u`. -/
def connectionsOf (s : PresenceState) (u : Nat) : List Nat :=
  (s.liveConns.filter (fun p => p.2 = u)).map Prod.fst

/-- A trace is well-formed from state `s` when every connect uses a fresh
socket id and every disconnect is the disconnect of a currently live
socket of that user. -/
def validFrom (s : PresenceState) : List PresenceEvent → Bool
  | [] => true
  | .connect u c :: es =>
      (!(s.liveConns.map Prod.fst).contains c) &&
        validFrom (presenceStep s (.connect u c)) es
  | .disconnect u c :: es =>
      s.liveConns.contains (c, u) &&
        validFrom (presenceStep s (.disconnect u c)) es

/-- A trace is single-device from `s` when additionally no connect happens
for an identity that already has a live connection. -/
def singleDeviceFrom (s : PresenceState) : List PresenceEvent → Bool
  | [] => true
  | .connect u c :: es =>
      (connectionsOf s u).isEmpty &&
        (!(s.liveConns.map Prod.fst).contains c) &&
        singleDeviceFrom (presenceStep s (.connect u c)) es
  | .disconnect u c :: es =>
      s.liveConns.contains (c, u) &&
        singleDeviceFrom (presenceStep s (.disconnect u c)) es

/-- Invariant tying `activeUsers` to the live connections under
single-device operation: a user id is an `activeUsers` key iff it owns a
live connection, no two live connections share a user, and no two live
connections share a socket id. -/
def presInv (s : PresenceState) : Prop :=
  (∀ u, u ∈ s.activeUsers ↔ ∃ p ∈ s.liveConns, p.2 = u) ∧
  s.liveConns.Pairwise (fun p q => p.2 ≠ q.2) ∧
  s.liveConns.Pairwise (fun p q => p.1 ≠ q.1)


/-! ## Message model (unnamed part_009)

Reactions, read receipts, edit and delete are embedded as pure functions
on an explicit message value; `save()` persists `this`, so each document
method is a function `Message → Message` (or `Except String Message` for
the throwing methods). -/

structure Reaction where
  user : Nat
  emoji : String
  createdAt : Nat
deriving DecidableEq, Repr

/-- `reactions.find(r => r.user.equals(userId))` followed by in-place
update of that element: update the first entry whose user matches. -/
def updateFirstReaction : List Reaction → Nat → String → Nat → List Reaction
  | [], _, _, _ => []
  | r :: rs, u, e, t =>
      if r.user = u then { r with emoji := e, createdAt := t } :: rs
      else r :: updateFirstReaction rs u e t

/-- `messageSchema.methods.addReaction` (part_009 lines 179–196): if the
user already has a reaction, overwrite its emoji and timestamp; otherwise
push a new reaction. -/
def addReaction (rs : List Reaction) (u : Nat) (e : String) (t : Nat) :
    List Reaction :=
  if rs.any (fun r => r.user = u) then updateFirstReaction rs u e t
  else rs ++ [⟨u, e, t⟩]

/-- `messageSchema.methods.removeReaction` (lines 199–202). -/
def removeReaction (rs : List Reaction) (u : Nat) : List Reaction :=
  rs.filter (fun r => r.user ≠ u)

structure Message where
  id : Nat
  chat : Nat
  sender : Nat
  content : String
  mtype : String
  readBy : List (Nat × Nat)
  deliveredTo : List (Nat × Nat)
  edited : Bool
  editedAt : Option Nat
  deleted : Bool
  deletedAt : Option Nat
  deletedFor : List Nat
  reactions : List Reaction
  createdAt : Nat
deriving DecidableEq, Repr

/-- `messageSchema.methods.markAsReadBy` (lines 141–157): own messages are
never marked; an already-present reader is a no-op; otherwise `(user,
readAt)` is pushed. -/
def markAsReadBy (m : Message) (u t : Nat) : Message :=
  if m.sender = u then m
  else if m.readBy.any (fun r => r.1 = u) then m
  else { m with readBy := m.readBy ++ [(u, t)] }

def tombstone : String := "This message was deleted"

/-- `messageSchema.methods.editContent` (lines 205–226). -/
def editContent (m : Message) (newContent : String) (u t : Nat) :
    Except String Message :=
  if ¬ m.sender = u then .error "Only sender can edit message"
  else if m.deleted then .error "Cannot edit deleted message"
  else if m.mtype = "system" then .error "Cannot edit system message"
  else .ok { m with content := newContent, edited := true, editedAt := some t }

/-- `messageSchema.methods.deleteMessage` (lines 229–246). -/
def deleteMessage (m : Message) (u : Nat) (deleteForEveryone : Bool)
    (t : Nat) : Except String Message :=
  if deleteForEveryone then
    if ¬ m.sender = u then .error "Only sender can delete message for everyone"
    else .ok { m with deleted := true, deletedAt := some t, content := tombstone }
  else
    .ok { m with deletedFor :=
      if m.deletedFor.contains u then m.deletedFor else m.deletedFor ++ [u] }

/-- `messageSchema.methods.isDeletedForUser` (lines 249–251). -/
def isDeletedForUser (m : Message) (u : Nat) : Bool :=
  m.deleted || m.deletedFor.any (fun v => v = u)

/-- `messageSchema.statics.markAllAsRead` (lines 264–281): an `updateMany`
that pushes `(userId, readAt)` onto the `readBy` of every message of the
chat whose sender is not the caller, which the caller has not yet read,
and which is not deleted. -/
def markAllAsRead (store : List Message) (chatId u t : Nat) : List Message :=
  store.map fun m =>
    if m.chat = chatId ∧ m.sender ≠ u ∧
        ¬ m.readBy.any (fun r => r.1 = u) ∧ m.deleted = false
    then { m with readBy := m.readBy ++ [(u, t)] }
    else m

/-- The `mark_as_read` handler with explicit `messageIds`
(socketHandler.js lines 360–368): for each listed id, look the message up
and call `markAsReadBy` unless the caller is its sender. -/
def markReadIds (store : List Message) (ids : List Nat) (u t : Nat) :
    List Message :=
  store.map fun m =>
    if ids.contains m.id ∧ m.sender ≠ u then markAsReadBy m u t else m

/-! ## Chat model (src/server/models/Chat.js) -/

structure Chat where
  id : Nat
  ctype : String
  participants : List Nat
  admins : List Nat
  onlyAdminsCanMessage : Bool
deriving DecidableEq, Repr

/-- `chatSchema.methods.isParticipant` (Chat.js lines 180–182). -/
def isParticipant (c : Chat) (u : Nat) : Bool :=
  c.participants.any (fun v => v = u)

/-- `chatSchema.methods.isAdmin` (Chat.js lines 175–177). -/
def isAdmin (c : Chat) (u : Nat) : Bool :=
  c.admins.any (fun v => v = u)

/-! ## Association-list helpers for the in-memory `Map`s -/

def assocGet {α : Type} : List (Nat × α) → Nat → Option α
  | [], _ => none
  | (k', v) :: rest, k => if k' = k then some v else assocGet rest k

def assocSet {α : Type} : List (Nat × α) → Nat → α → List (Nat × α)
  | [], k, v => [(k, v)]
  | (k', v') :: rest, k, v =>
      if k' = k then (k, v) :: rest else (k', v') :: assocSet rest k v

/-! ## Event Router — message send (socketHandler.js lines 121–205)

The handler's observable output is the sequence of socket emissions.
`saveOk` models the store mutations up to and including the delivery
loop's prerequisites (`message.save()`, `chat.save()`, `populate`);
`deliverOk` models the `markAsDeliveredTo` loop; a `false` flag means the
corresponding store call throws, landing in the `catch` block that emits
`message_error` with the client's `tempId`.  `typingHasChat` is whether
`typingUsers` has an entry for the chat (lines 169–176). -/

def sendMessageEmits (chat : Option Chat) (chatId senderId tempId : Nat)
    (typingHasChat saveOk deliverOk : Bool) : List Emission :=
  match chat with
  | none => [⟨.caller, "error", none⟩]
  | some c =>
    if ¬ isParticipant c senderId then [⟨.caller, "error", none⟩]
    else if c.ctype = "group" ∧ c.onlyAdminsCanMessage ∧ ¬ isAdmin c senderId then
      [⟨.caller, "error", none⟩]
    else if ¬ saveOk then [⟨.caller, "message_error", some tempId⟩]
    else
      (if typingHasChat then [⟨Target.room chatId, "typing_stop", none⟩] else []) ++
      (if ¬ deliverOk then [⟨.caller, "message_error", some tempId⟩]
       else [⟨Target.room chatId, "new_message", none⟩,
             ⟨.caller, "message_sent", some tempId⟩])

/-! ## Call Signaling Relay (socketHandler.js lines 9, 387–491) -/

structure CallSession where
  chatId : Nat
  callType : String
  initiator : Nat
  participants : List Nat
  startTime : Nat
deriving DecidableEq, Repr

/-- `socket.on('call_initiate')` (lines 387–423): reject only when the
chat is missing or the caller is not a participant; otherwise store the
call session and notify the chat room excluding the caller. -/
def callInitiate (calls : List (Nat × CallSession)) (chat : Option Chat)
    (chatId : Nat) (callType : String) (callId callerId t : Nat) :
    List (Nat × CallSession) × List Emission :=
  match chat with
  | none => (calls, [⟨.caller, "error", none⟩])
  | some c =>
    if ¬ isParticipant c callerId then (calls, [⟨.caller, "error", none⟩])
    else
      (assocSet calls callId ⟨chatId, callType, callerId, [callerId], t⟩,
       [⟨.roomOthers chatId, "call_incoming", none⟩])

/-- `socket.on('webrtc_offer' / 'webrtc_answer' / 'webrtc_ice_candidate')`
(lines 426–451): the payload is forwarded to the target user's personal
room; the handler body never reads `activeCalls` (the `calls` argument is
unused), and no error path exists. -/
def webrtcSignalEmits (calls : List (Nat × CallSession)) (eventName : String)
    (targetUserId callId fromId : Nat) : List Emission :=
  [⟨.user targetUserId, eventName, none⟩]

/-- `socket.on('call_response')` (lines 454–474): on accept, push the
responder onto the session's participant list when the session exists;
forward `call_response` to the target user unconditionally. -/
def callResponse (calls : List (Nat × CallSession)) (callId : Nat)
    (accepted : Bool) (responderId targetUserId : Nat) :
    List (Nat × CallSession) × List Emission :=
  let calls' :=
    if accepted then
      match assocGet calls callId with
      | some call =>
          assocSet calls callId
            { call with participants := call.participants ++ [responderId] }
      | none => calls
    else calls
  (calls', [⟨.user targetUserId, "call_response", none⟩])

/-- `socket.on('call_end')` (lines 477–491): delete the session if
present; emit `call_ended` to the chat room excluding the ender
unconditionally. -/
def callEnd (calls : List (Nat × CallSession)) (callId chatId enderId : Nat) :
    List (Nat × CallSession) × List Emission :=
  (calls.filter (fun p => p.1 ≠ callId),
   [⟨.roomOthers chatId, "call_ended", none⟩])

/-! ## Typing Tracker (socketHandler.js lines 8, 317–346) -/

/-- `typingUsers.set(chatId, new Set())` if absent, then
`typingUsers.get(chatId).add(userId)`. -/
def addTyping : List (Nat × List Nat) → Nat → Nat → List (Nat × List Nat)
  | [], c, u => [(c, [u])]
  | (c', s) :: rest, c, u =>
      if c' = c then (c', if s.contains u then s else s ++ [u]) :: rest
      else (c', s) :: addTyping rest c u

/-- The typing set currently recorded for a chat. -/
def typingSetOf (typing : List (Nat × List Nat)) (chatId : Nat) : List Nat :=
  (assocGet typing chatId).getD []

/-- `socket.on('typing_start')` (lines 317–331): add the user to the
chat's typing set and broadcast `typing_start` to the room excluding the
sender — the broadcast is unconditional. -/
def typingStart (typing : List (Nat × List Nat)) (chatId userId : Nat) :
    List (Nat × List Nat) × List Emission :=
  (addTyping typing chatId userId,
   [⟨.roomOthers chatId, "typing_start", none⟩])

/-! ## Read-receipt operation sequences and the history route -/

/-- The two markRead entry points reachable from the `mark_as_read`
handler (socketHandler.js lines 351–382): explicit message ids, or the
mark-all-unread variant. -/
inductive ReadOp where
  | perIds (ids : List Nat) (u t : Nat)
  | allChat (chatId u t : Nat)
deriving DecidableEq, Repr

def applyReadOp (store : List Message) : ReadOp → List Message
  | .perIds ids u t => markReadIds store ids u t
  | .allChat c u t => markAllAsRead store c u t

def runReadOps (store : List Message) (ops : List ReadOp) : List Message :=
  ops.foldl applyReadOp store

/-- No message lists its own sender in its read-by set. -/
def senderNeverReader (store : List Message) : Prop :=
  ∀ m ∈ store, ∀ r ∈ m.readBy, r.1 ≠ m.sender

/-- The history query's mongo filter (part_006 lines 41–47):
`{ chat: chatId, $or: [{deleted: false}, {deleted: true, sender: me}] }`. -/
def historyQueryPred (u chatId : Nat) (m : Message) : Bool :=
  m.chat = chatId ∧ (m.deleted = false ∨ (m.deleted = true ∧ m.sender = u))

/-- The message-history fetch (part_006 lines 41–67): query filter, then
pagination (`skip`/`limit`), then the `isDeletedForUser` filter, then the
final `reverse`. -/
def getChatMessages (store : List Message) (chatId u skip lim : Nat) :
    List Message :=
  ((((store.filter (historyQueryPred u chatId)).drop skip).take lim).filter
      (fun m => ¬ isDeletedForUser m u = true)).reverse

/-! ## Sample values used by witnesses -/

def sampleMsg : Message :=
  { id := 1, chat := 1, sender := 1, content := "hi", mtype := "text",
    readBy := [], deliveredTo := [], edited := false, editedAt := none,
    deleted := false, deletedAt := none, deletedFor := [], reactions := [],
    createdAt := 2 }

def sampleDeleted : Message :=
  { id := 1, chat := 1, sender := 1, content := tombstone, mtype := "text",
    readBy := [], deliveredTo := [], edited := false, editedAt := none,
    deleted := true, deletedAt := some 3, deletedFor := [], reactions := [],
    createdAt := 2 }

/-! ## Presence-table invariant lemmas -/

theorem presInv_init : presInv initPresence := by
  refine ⟨?_, ?_, ?_⟩ <;> simp [initPresence]

theorem presInv_connect (s : PresenceState) (u c : Nat)
    (hinv : presInv s) (hu : connectionsOf s u = [])
    (hc : ¬ c ∈ s.liveConns.map Prod.fst) :
    presInv (presenceStep s (.connect u c)) := by
  obtain ⟨h1, h2, h3⟩ := hinv
  have huser : ∀ p ∈ s.liveConns, p.2 ≠ u := by
    intro p hp hpu
    have : p.1 ∈ connectionsOf s u := by
      simp only [connectionsOf, List.mem_map, List.mem_filter]
      exact ⟨p, ⟨hp, by simp [hpu]⟩, rfl⟩
    rw [hu] at this
    simp at this
  have hsock : ∀ p ∈ s.liveConns, p.1 ≠ c := by
    intro p hp hpc
    exact hc (List.mem_map.mpr ⟨p, hp, hpc⟩)
  refine ⟨?_, ?_, ?_⟩
  · intro v
    simp only [presenceStep]
    by_cases hv : v = u
    · subst hv
      constructor
      · intro _
        exact ⟨(c, v), by simp⟩
      · intro _
        by_cases hmem : v ∈ s.activeUsers <;> simp [hmem]
    · have hstep : v ∈ (if u ∈ s.activeUsers then s.activeUsers else u :: s.activeUsers) ↔
          v ∈ s.activeUsers := by
        by_cases hmem : u ∈ s.activeUsers <;> simp [hmem, hv]
      rw [hstep, h1 v]
      constructor
      · rintro ⟨p, hp, hpv⟩
        exact ⟨p, by simp [hp], hpv⟩
      · rintro ⟨p, hp, hpv⟩
        rcases List.mem_cons.mp hp with hpc | hps
        · subst hpc; simp at hpv; exact absurd hpv.symm hv
        · exact ⟨p, hps, hpv⟩
  · exact List.pairwise_cons.mpr ⟨fun q hq hqe => (huser q hq) hqe.symm, h2⟩
  · exact List.pairwise_cons.mpr ⟨fun q hq hqe => (hsock q hq) hqe.symm, h3⟩

theorem presInv_disconnect (s : PresenceState) (u c : Nat)
    (hinv : presInv s) (hcu : (c, u) ∈ s.liveConns) :
    presInv (presenceStep s (.disconnect u c)) := by
  obtain ⟨h1, h2, h3⟩ := hinv
  have husym : Symmetric (fun p q : Nat × Nat => p.2 ≠ q.2) :=
    fun p q h => Ne.symm h
  have hssym : Symmetric (fun p q : Nat × Nat => p.1 ≠ q.1) :=
    fun p q h => Ne.symm h
  -- a live pair with user u is (c, u); a live pair with socket c is (c, u)
  have huser : ∀ p ∈ s.liveConns, p.2 = u → p = (c, u) := by
    intro p hp hpu
    by_contra hne
    exact (List.Pairwise.forall husym h2 hp hcu hne) (by simp [hpu])
  have hsock : ∀ p ∈ s.liveConns, p.1 = c → p = (c, u) := by
    intro p hp hpc
    by_contra hne
    exact (List.Pairwise.forall hssym h3 hp hcu hne) (by simp [hpc])
  refine ⟨?_, ?_, ?_⟩
  · intro v
    show v ∈ s.activeUsers.filter (fun x => x ≠ u) ↔
      ∃ p ∈ s.liveConns.filter (fun p => p.1 ≠ c), p.2 = v
    constructor
    · intro hmem
      rw [List.mem_filter] at hmem
      obtain ⟨hmem, hvu⟩ := hmem
      have hvu' : v ≠ u := by simpa using hvu
      obtain ⟨p, hp, hpv⟩ := (h1 v).mp hmem
      refine ⟨p, List.mem_filter.mpr ⟨hp, ?_⟩, hpv⟩
      have hpc : p.1 ≠ c := by
        intro hpc
        have := hsock p hp hpc
        subst this
        have huv : u = v := by simpa using hpv
        exact hvu' huv.symm
      simpa using hpc
    · rintro ⟨p, hp, hpv⟩
      rw [List.mem_filter] at hp
      obtain ⟨hp, hpc⟩ := hp
      have hpc' : p.1 ≠ c := by simpa using hpc
      have hvu : v ≠ u := by
        intro hvu
        subst hvu
        exact hpc' (congrArg Prod.fst (huser p hp hpv))
      exact List.mem_filter.mpr ⟨(h1 v).mpr ⟨p, hp, hpv⟩, by simpa using hvu⟩
  · exact List.Pairwise.sublist (List.filter_sublist _) h2
  · exact List.Pairwise.sublist (List.filter_sublist _) h3

theorem presInv_run (s : PresenceState) (es : List PresenceEvent)
    (hinv : presInv s) (hval : singleDeviceFrom s es = true) :
    presInv (es.foldl presenceStep s) := by
  induction es generalizing s with
  | nil => exact hinv
  | cons e es ih =>
      cases e with
      | connect u c =>
          simp only [singleDeviceFrom, Bool.and_eq_true] at hval
          obtain ⟨⟨hu, hc⟩, hrest⟩ := hval
          refine ih (presenceStep s (.connect u c))
            (presInv_connect s u c hinv ?_ ?_) hrest
          · exact List.isEmpty_iff.mp hu
          · simpa using hc
      | disconnect u c =>
          simp only [singleDeviceFrom, Bool.and_eq_true] at hval
          obtain ⟨hcu, hrest⟩ := hval
          refine ih (presenceStep s (.disconnect u c))
            (presInv_disconnect s u c hinv ?_) hrest
          simpa using hcu

theorem presence_iff_of_inv (s : PresenceState) (hinv : presInv s) (u : Nat) :
    isOnline s u = true ↔ connectionsOf s u ≠ [] := by
  obtain ⟨h1, _, _⟩ := hinv
  have hmem : isOnline s u = true ↔ u ∈ s.activeUsers := by simp [isOnline]
  rw [hmem, h1 u]
  constructor
  · rintro ⟨p, hp, hpu⟩ hnil
    have : p.1 ∈ connectionsOf s u := by
      simp only [connectionsOf, List.mem_map, List.mem_filter]
      exact ⟨p, ⟨hp, by simp [hpu]⟩, rfl⟩
    rw [hnil] at this
    simp at this
  · intro hne
    obtain ⟨a, ha⟩ := List.exists_mem_of_ne_nil _ hne
    simp only [connectionsOf, List.mem_map, List.mem_filter,
      decide_eq_true_eq] at ha
    obtain ⟨p, ⟨hp, hpu⟩, _⟩ := ha
    exact ⟨p, hp, hpu⟩

/-! ## Claim C1 -/

/-- C1 (counterexample): "isOnline(I) iff connectionsOf(I) non-empty after
any sequence of register/deregister calls" fails on the code: registering
two simultaneous connections for identity 1 (sockets 10 and 11) and then
deregistering socket 10 is a well-formed sequence, yet afterwards the
presence table reports identity 1 offline while socket 11 is still a live
connection, because the disconnect handler deletes the `activeUsers` entry
keyed by user id unconditionally. -/
theorem C1_counterexample :
    validFrom initPresence
      [.connect 1 10, .connect 1 11, .disconnect 1 10] = true ∧
    ¬ (isOnline (runPresence [.connect 1 10, .connect 1 11, .disconnect 1 10]) 1 = true ↔
        connectionsOf (runPresence [.connect 1 10, .connect 1 11, .disconnect 1 10]) 1 ≠ []) := by
  constructor
  · decide
  · decide

/-- C1 (amended): for every single-device sequence of registrations and
deregistrations — one in which no identity is registered while it already
has a live connection — the presence table reports an identity online iff
it has at least one live connection. -/
theorem C1_presence_online_iff_connected (es : List PresenceEvent) (u : Nat)
    (hval : singleDeviceFrom initPresence es = true) :
    isOnline (runPresence es) u = true ↔ connectionsOf (runPresence es) u ≠ [] :=
  presence_iff_of_inv (runPresence es)
    (presInv_run initPresence es presInv_init hval) u

/-- C1 witness: the amended theorem instantiated on a concrete
single-device trace. -/
theorem C1_presence_witness :
    singleDeviceFrom initPresence
      [.connect 1 10, .disconnect 1 10, .connect 2 11] = true ∧
    (isOnline (runPresence [.connect 1 10, .disconnect 1 10, .connect 2 11]) 2 = true ↔
      connectionsOf (runPresence [.connect 1 10, .disconnect 1 10, .connect 2 11]) 2 ≠ []) :=
  ⟨by decide, C1_presence_online_iff_connected _ 2 (by decide)⟩

/-! ## Claim C5 -/

theorem countP_updateFirstReaction (rs : List Reaction) (u : Nat)
    (e : String) (t : Nat) :
    (updateFirstReaction rs u e t).countP (fun r => r.user = u) =
      rs.countP (fun r => r.user = u) := by
  induction rs with
  | nil => rfl
  | cons r rs ih =>
      by_cases h : r.user = u
      · simp [updateFirstReaction, h, List.countP_cons]
      · simp [updateFirstReaction, h, List.countP_cons, ih]

theorem mem_updateFirstReaction_emoji (rs : List Reaction) (u : Nat)
    (e : String) (t : Nat)
    (hcount : rs.countP (fun r => r.user = u) ≤ 1) :
    ∀ r ∈ updateFirstReaction rs u e t, r.user = u →
      r.emoji = e ∧ r.createdAt = t := by
  induction rs with
  | nil => intro r hr; simp [updateFirstReaction] at hr
  | cons a rs ih =>
      intro r hr hru
      by_cases h : a.user = u
      · simp only [updateFirstReaction, if_pos h] at hr
        rcases List.mem_cons.mp hr with rfl | hmem
        · exact ⟨rfl, rfl⟩
        · exfalso
          have h1 : (a :: rs).countP (fun r => r.user = u) =
              rs.countP (fun r => r.user = u) + 1 := by
            simp [List.countP_cons, h]
          rw [h1] at hcount
          have hc : rs.countP (fun r => r.user = u) = 0 := by omega
          have := List.countP_eq_zero.mp hc r hmem
          simp [hru] at this
      · simp only [updateFirstReaction, if_neg h] at hr
        rcases List.mem_cons.mp hr with rfl | hmem
        · exact absurd hru h
        · have h1 : (a :: rs).countP (fun r => r.user = u) =
              rs.countP (fun r => r.user = u) := by
            simp [List.countP_cons, h]
          rw [h1] at hcount
          exact ih hcount r hmem hru

theorem countP_addReaction (rs : List Reaction) (u : Nat) (e : String)
    (t : Nat) (hcount : rs.countP (fun r => r.user = u) ≤ 1) :
    (addReaction rs u e t).countP (fun r => r.user = u) = 1 := by
  by_cases h : rs.any (fun r => r.user = u)
  · rw [addReaction, if_pos h, countP_updateFirstReaction]
    obtain ⟨r, hr, hru⟩ := List.any_eq_true.mp h
    have : 0 < rs.countP (fun r => r.user = u) :=
      List.countP_pos_iff.mpr ⟨r, hr, hru⟩
    omega
  · rw [addReaction, if_neg h]
    have h0 : rs.countP (fun r => r.user = u) = 0 := by
      rw [List.countP_eq_zero]
      intro a ha hp
      exact h (List.any_eq_true.mpr ⟨a, ha, hp⟩)
    simp [List.countP_append, h0, List.countP_cons]

theorem mem_addReaction_emoji (rs : List Reaction) (u : Nat) (e : String)
    (t : Nat) (hcount : rs.countP (fun r => r.user = u) ≤ 1) :
    ∀ r ∈ addReaction rs u e t, r.user = u →
      r.emoji = e ∧ r.createdAt = t := by
  by_cases h : rs.any (fun r => r.user = u)
  · rw [addReaction, if_pos h]
    exact mem_updateFirstReaction_emoji rs u e t hcount
  · rw [addReaction, if_neg h]
    intro r hr hru
    rcases List.mem_append.mp hr with hmem | hmem
    · exact absurd (List.any_eq_true.mpr ⟨r, hmem, by simp [hru]⟩) h
    · simp only [List.mem_singleton] at hmem
      subst hmem
      exact ⟨rfl, rfl⟩

/-- C5: for every message whose reaction list has at most one entry for
user `u` (the invariant `addReaction`/`removeReaction` maintain), adding
reaction emoji `E` and then emoji `F` by `u` leaves exactly one reaction
entry for `u`, and its emoji and timestamp are those of the later add. -/
theorem C5_reaction_overwrite (rs : List Reaction) (u : Nat) (E F : String)
    (t₁ t₂ : Nat) (hcount : rs.countP (fun r => r.user = u) ≤ 1) :
    (addReaction (addReaction rs u E t₁) u F t₂).countP
        (fun r => r.user = u) = 1 ∧
    ∀ r ∈ addReaction (addReaction rs u E t₁) u F t₂,
      r.user = u → r.emoji = F ∧ r.createdAt = t₂ := by
  have h1 : (addReaction rs u E t₁).countP (fun r => r.user = u) = 1 :=
    countP_addReaction rs u E t₁ hcount
  exact ⟨countP_addReaction _ u F t₂ (le_of_eq h1),
    mem_addReaction_emoji _ u F t₂ (le_of_eq h1)⟩

/-- C5 witness: the theorem instantiated on a reaction list holding one
reaction by another user. -/
theorem C5_reaction_witness :
    (([⟨2, "x", 0⟩] : List Reaction).countP (fun r => r.user = 1) ≤ 1) ∧
    (addReaction (addReaction [⟨2, "x", 0⟩] 1 "E" 5) 1 "F" 6).countP
        (fun r => r.user = 1) = 1 :=
  ⟨by decide, (C5_reaction_overwrite [⟨2, "x", 0⟩] 1 "E" "F" 5 6 (by decide)).1⟩

/-! ## Claim C6 -/

theorem markAsReadBy_idem (m : Message) (u t₁ t₂ : Nat) :
    markAsReadBy (markAsReadBy m u t₁) u t₂ = markAsReadBy m u t₁ := by
  unfold markAsReadBy
  by_cases hs : m.sender = u
  · simp [hs]
  · by_cases ha : m.readBy.any (fun r => r.1 = u)
    · simp [hs, ha]
    · simp [hs, ha]

theorem markAsReadBy_id (m : Message) (u t : Nat) :
    (markAsReadBy m u t).id = m.id := by
  unfold markAsReadBy
  by_cases hs : m.sender = u
  · simp [hs]
  · by_cases ha : m.readBy.any (fun r => r.1 = u) <;> simp [hs, ha]

theorem markAsReadBy_sender (m : Message) (u t : Nat) :
    (markAsReadBy m u t).sender = m.sender := by
  unfold markAsReadBy
  by_cases hs : m.sender = u
  · simp [hs]
  · by_cases ha : m.readBy.any (fun r => r.1 = u) <;> simp [hs, ha]

theorem markReadIds_idem (store : List Message) (ids : List Nat)
    (u t₁ t₂ : Nat) :
    markReadIds (markReadIds store ids u t₁) ids u t₂ =
      markReadIds store ids u t₁ := by
  unfold markReadIds
  rw [List.map_map]
  apply List.map_congr_left
  intro m _
  by_cases hc : ids.contains m.id ∧ m.sender ≠ u
  · simp only [Function.comp_apply, if_pos hc]
    have hc' : ids.contains (markAsReadBy m u t₁).id ∧
        (markAsReadBy m u t₁).sender ≠ u := by
      rw [markAsReadBy_id, markAsReadBy_sender]; exact hc
    rw [if_pos hc', markAsReadBy_idem]
  · simp only [Function.comp_apply, if_neg hc]

theorem markAllAsRead_idem (store : List Message) (chatId u t₁ t₂ : Nat) :
    markAllAsRead (markAllAsRead store chatId u t₁) chatId u t₂ =
      markAllAsRead store chatId u t₁ := by
  unfold markAllAsRead
  rw [List.map_map]
  apply List.map_congr_left
  intro m _
  by_cases hc : m.chat = chatId ∧ m.sender ≠ u ∧
      ¬ m.readBy.any (fun r => r.1 = u) ∧ m.deleted = false
  · simp only [Function.comp_apply, if_pos hc]
    have hnot : ¬ (({ m with readBy := m.readBy ++ [(u, t₁)] } : Message).chat = chatId ∧
        ({ m with readBy := m.readBy ++ [(u, t₁)] } : Message).sender ≠ u ∧
        ¬ ({ m with readBy := m.readBy ++ [(u, t₁)] } : Message).readBy.any
            (fun r => r.1 = u) ∧
        ({ m with readBy := m.readBy ++ [(u, t₁)] } : Message).deleted = false) := by
      intro h
      exact h.2.2.1 (by simp)
    rw [if_neg hnot]
  · simp only [Function.comp_apply, if_neg hc]

/-- C6: marking read is idempotent, both for an explicit message id set
(the `mark_as_read` handler's per-message `markAsReadBy` path) and for the
mark-all variant (`markAllAsRead`): a second application with the same
arguments — even at a later timestamp — leaves every message, and hence
every read-by set, unchanged. -/
theorem C6_markRead_idempotent (store : List Message) (ids : List Nat)
    (chatId u t₁ t₂ : Nat) :
    markReadIds (markReadIds store ids u t₁) ids u t₂ =
      markReadIds store ids u t₁ ∧
    markAllAsRead (markAllAsRead store chatId u t₁) chatId u t₂ =
      markAllAsRead store chatId u t₁ :=
  ⟨markReadIds_idem store ids u t₁ t₂, markAllAsRead_idem store chatId u t₁ t₂⟩

/-! ## Claim C7 -/

/-- C7: deleting a message for everyone (done by its sender) replaces the
content with the tombstone text, and a subsequent edit attempt by any user
— the sender included — fails with an error, leaving the content the
tombstone. -/
theorem C7_deleted_message_edit_fails (m : Message) (editor : Nat)
    (c : String) (t₁ t₂ : Nat) :
    ∃ m', deleteMessage m m.sender true t₁ = .ok m' ∧
      m'.content = tombstone ∧
      ∃ e, editContent m' c editor t₂ = .error e := by
  refine ⟨{ m with deleted := true, deletedAt := some t₁, content := tombstone },
    ?_, rfl, ?_⟩
  · unfold deleteMessage
    simp
  · unfold editContent
    by_cases he : m.sender = editor
    · refine ⟨"Cannot edit deleted message", ?_⟩
      simp [he]
    · refine ⟨"Only sender can edit message", ?_⟩
      simp [he]

/-! ## Claim C9 -/

theorem markAsReadBy_preserves_sender_not_reader (m : Message) (u t : Nat)
    (h : ∀ r ∈ m.readBy, r.1 ≠ m.sender) :
    ∀ r ∈ (markAsReadBy m u t).readBy, r.1 ≠ (markAsReadBy m u t).sender := by
  unfold markAsReadBy
  by_cases hs : m.sender = u
  · simp only [if_pos hs]; exact h
  · by_cases ha : m.readBy.any (fun r => r.1 = u)
    · simp only [if_neg hs, if_pos ha]; exact h
    · simp only [if_neg hs, if_neg ha]
      intro r hr
      rcases List.mem_append.mp hr with hmem | hmem
      · exact h r hmem
      · simp only [List.mem_singleton] at hmem
        subst hmem
        exact fun hh => hs hh.symm

theorem applyReadOp_preserves (store : List Message) (op : ReadOp)
    (h : senderNeverReader store) : senderNeverReader (applyReadOp store op) := by
  cases op with
  | perIds ids u t =>
      intro m hm
      simp only [applyReadOp, markReadIds, List.mem_map] at hm
      obtain ⟨m₀, hm₀, rfl⟩ := hm
      by_cases hc : ids.contains m₀.id ∧ m₀.sender ≠ u
      · rw [if_pos hc]
        exact markAsReadBy_preserves_sender_not_reader m₀ u t (h m₀ hm₀)
      · rw [if_neg hc]
        exact h m₀ hm₀
  | allChat c u t =>
      intro m hm
      simp only [applyReadOp, markAllAsRead, List.mem_map] at hm
      obtain ⟨m₀, hm₀, rfl⟩ := hm
      by_cases hc : m₀.chat = c ∧ m₀.sender ≠ u ∧
          ¬ m₀.readBy.any (fun r => r.1 = u) ∧ m₀.deleted = false
      · rw [if_pos hc]
        intro r hr
        rcases List.mem_append.mp hr with hmem | hmem
        · exact h m₀ hm₀ r hmem
        · simp only [List.mem_singleton] at hmem
          subst hmem
          exact fun hh => hc.2.1 hh.symm
      · rw [if_neg hc]
        exact h m₀ hm₀

/-- C9: a message's sender is never an element of its read-by set: the
property is preserved by every sequence of markRead calls, whether by
explicit message ids (per-message `markAsReadBy`, which itself refuses the
sender, as does the handler's guard) or by the mark-all-unread variant
(`markAllAsRead`, which filters on sender ≠ caller). -/
theorem C9_sender_not_in_readBy (store : List Message) (ops : List ReadOp)
    (h : senderNeverReader store) : senderNeverReader (runReadOps store ops) := by
  induction ops generalizing store with
  | nil => exact h
  | cons op ops ih =>
      exact ih (applyReadOp store op) (applyReadOp_preserves store op h)

/-- C9 witness: after user 2 marks message 1 (sent by user 1) read, the
read-by entry `(2, 5)` does not name the sender. -/
theorem C9_sender_witness :
    ((2, 5) : Nat × Nat).1 ≠ (markAsReadBy sampleMsg 2 5).sender := by
  have h := C9_sender_not_in_readBy [sampleMsg] [ReadOp.perIds [1] 2 5]
    (by unfold senderNeverReader; decide)
  exact h (markAsReadBy sampleMsg 2 5) (by decide) (2, 5) (by decide)

/-! ## Claim C10 -/

/-- C10: a message deleted for everyone is excluded from every user's
history fetch — including the original sender's, although the query filter
admits deleted messages whose sender is the requester — because
`isDeletedForUser` returns true whenever the deleted flag is set. -/
theorem C10_deleted_excluded_from_history (store : List Message)
    (chatId u skip lim : Nat) (m : Message) (hdel : m.deleted = true) :
    m ∉ getChatMessages store chatId u skip lim := by
  intro hmem
  unfold getChatMessages at hmem
  rw [List.mem_reverse, List.mem_filter] at hmem
  have := hmem.2
  simp [isDeletedForUser, hdel] at this

/-- C10 witness: the deleted sample message is absent from its own
sender's history fetch. -/
theorem C10_deleted_witness :
    sampleDeleted.deleted = true ∧
    sampleDeleted ∉ getChatMessages [sampleDeleted] 1 1 0 50 :=
  ⟨rfl, C10_deleted_excluded_from_history [sampleDeleted] 1 1 0 50
    sampleDeleted rfl⟩

/-! ## Claim C2 -/

/-- C2 (counterexample): when user 5 — not a participant of chat 1 —
sends a message, the handler emits a bare `error` event with no `tempId`
to the caller (socketHandler.js lines 131–133), not an error keyed by the
client's correlation id as the claim states; only the catch-path
`message_error` carries `tempId`. -/
theorem C2_counterexample :
    isParticipant ⟨1, "private", [2, 3], [], false⟩ 5 = false ∧
    sendMessageEmits (some ⟨1, "private", [2, 3], [], false⟩) 1 5 7 false true true =
      [⟨.caller, "error", none⟩] ∧
    ¬ ∀ e ∈ sendMessageEmits (some ⟨1, "private", [2, 3], [], false⟩) 1 5 7 false true true,
        (e.event = "error" ∨ e.event = "message_error") → e.tempId = some 7 := by
  refine ⟨rfl, by decide, ?_⟩
  intro hall
  have := hall ⟨.caller, "error", none⟩ (by decide) (Or.inl rfl)
  simp at this

/-- C2 (amended): every send_message error — membership failure or store
failure — is emitted to the originating connection only and is never a
Room broadcast; when any error is emitted no `new_message` broadcast
occurs; but only the store-failure error (`message_error`) is keyed by the
client's `tempId`, while the not-a-member failure is an unkeyed `error`
event. -/
theorem C2_send_errors_caller_scoped (chat : Option Chat)
    (chatId senderId tempId : Nat) (typingHasChat saveOk deliverOk : Bool) :
    (∀ e ∈ sendMessageEmits chat chatId senderId tempId typingHasChat saveOk deliverOk,
        (e.event = "error" ∨ e.event = "message_error") → e.target = Target.caller) ∧
    (∀ e ∈ sendMessageEmits chat chatId senderId tempId typingHasChat saveOk deliverOk,
        e.event = "message_error" → e.tempId = some tempId) ∧
    ((∃ e ∈ sendMessageEmits chat chatId senderId tempId typingHasChat saveOk deliverOk,
        e.event = "error" ∨ e.event = "message_error") →
      ∀ e ∈ sendMessageEmits chat chatId senderId tempId typingHasChat saveOk deliverOk,
        e.event ≠ "new_message") := by
  cases chat with
  | none =>
      refine ⟨?_, ?_, ?_⟩ <;> simp [sendMessageEmits]
  | some c =>
      unfold sendMessageEmits
      by_cases hp : isParticipant c senderId = true <;>
        by_cases hg : c.ctype = "group" <;>
          by_cases hoa : c.onlyAdminsCanMessage = true <;>
            by_cases hia : isAdmin c senderId = true <;>
              by_cases hsave : saveOk = true <;>
                by_cases hdel : deliverOk = true <;>
                  (refine ⟨?_, ?_, ?_⟩ <;> cases typingHasChat <;> simp_all)

/-- C2 witness: the amended theorem applied at a store-failure instance
shows the `message_error` emission carries the client's `tempId`. -/
theorem C2_send_error_witness :
    (⟨.caller, "message_error", some 7⟩ : Emission).tempId = some 7 :=
  (C2_send_errors_caller_scoped (some ⟨1, "private", [2, 3], [], false⟩)
      1 2 7 false false true).2.1
    ⟨.caller, "message_error", some 7⟩ (by decide) rfl

/-! ## Claim C3 -/

/-- C3 (counterexample): user 4 is a participant of group chat 1; the
relay accepts the call_initiate, stores a Call Session, and emits
`call_incoming` to the chat room — contradicting the claim that group
chats are rejected with no session and no notification. -/
theorem C3_counterexample :
    (⟨1, "group", [4, 5, 6], [4], false⟩ : Chat).ctype = "group" ∧
    callInitiate [] (some ⟨1, "group", [4, 5, 6], [4], false⟩) 1 "video" 9 4 100 =
      ([(9, ⟨1, "video", 4, [4], 100⟩)],
       [⟨.roomOthers 1, "call_incoming", none⟩]) := by
  constructor
  · rfl
  · decide

/-- C3 (amended): call initiation succeeds for every chat — group or
private alike — in which the caller is a participant: the session is
stored under the call id with participants = {caller} and `call_incoming`
goes to the chat room excluding the caller (a Room broadcast, not a
single-peer notification); the request is rejected, with no session
created, only when the chat is missing or the caller is not a
participant. -/
theorem C3_call_initiate_no_group_check
    (calls : List (Nat × CallSession)) (chat : Option Chat) (chatId : Nat)
    (callType : String) (callId callerId t : Nat) :
    (∀ c, chat = some c → isParticipant c callerId = true →
      callInitiate calls chat chatId callType callId callerId t =
        (assocSet calls callId ⟨chatId, callType, callerId, [callerId], t⟩,
         [⟨.roomOthers chatId, "call_incoming", none⟩])) ∧
    ((chat = none ∨ ∃ c, chat = some c ∧ isParticipant c callerId = false) →
      callInitiate calls chat chatId callType callId callerId t =
        (calls, [⟨.caller, "error", none⟩])) := by
  constructor
  · intro c hc hpart
    subst hc
    simp [callInitiate, hpart]
  · intro h
    rcases h with rfl | ⟨c, rfl, hpart⟩
    · rfl
    · simp [callInitiate, hpart]

/-- C3 witness: the amended theorem applied to a concrete group chat whose
caller is a participant. -/
theorem C3_call_initiate_witness :
    callInitiate [] (some ⟨1, "group", [4, 5, 6], [4], false⟩) 1 "audio" 9 4 100 =
      (assocSet [] 9 ⟨1, "audio", 4, [4], 100⟩,
       [⟨.roomOthers 1, "call_incoming", none⟩]) :=
  (C3_call_initiate_no_group_check [] (some ⟨1, "group", [4, 5, 6], [4], false⟩)
      1 "audio" 9 4 100).1 _ rfl (by decide)

/-! ## Claim C4 -/

/-- C4 (counterexample): with an empty call-session table, a webrtc_offer
referencing unknown callId 99 is still forwarded to the target user's
personal room and no error event is emitted — the claim says such events
are dropped with a client-visible error. -/
theorem C4_counterexample :
    assocGet ([] : List (Nat × CallSession)) 99 = none ∧
    webrtcSignalEmits [] "webrtc_offer" 2 99 1 =
      [⟨.user 2, "webrtc_offer", none⟩] ∧
    ∀ e ∈ webrtcSignalEmits [] "webrtc_offer" 2 99 1, e.event ≠ "error" := by
  refine ⟨rfl, rfl, ?_⟩
  intro e he
  simp only [webrtcSignalEmits, List.mem_singleton] at he
  subst he
  simp

theorem assocGet_none_not_mem {α : Type} (l : List (Nat × α)) (k : Nat)
    (h : assocGet l k = none) : ∀ p ∈ l, p.1 ≠ k := by
  induction l with
  | nil => intro p hp; simp at hp
  | cons a l ih =>
      obtain ⟨k', v⟩ := a
      intro p hp
      simp only [assocGet] at h
      by_cases hk : k' = k
      · simp [hk] at h
      · rw [if_neg hk] at h
        rcases List.mem_cons.mp hp with rfl | hmem
        · exact hk
        · exact ih h p hmem

/-- C4 (amended): signaling events referencing an unknown callId are not
dropped and produce no error: offer/answer/ICE payloads are forwarded to
the target user without the handler ever consulting the call table;
call_response is forwarded verbatim with the table unchanged; call_end
emits `call_ended` to the chat room with the table unchanged. -/
theorem C4_unknown_call_still_forwarded
    (calls : List (Nat × CallSession)) (name : String)
    (callId chatId targetUserId fromId : Nat) (accepted : Bool)
    (hunknown : assocGet calls callId = none) :
    webrtcSignalEmits calls name targetUserId callId fromId =
      [⟨.user targetUserId, name, none⟩] ∧
    callResponse calls callId accepted fromId targetUserId =
      (calls, [⟨.user targetUserId, "call_response", none⟩]) ∧
    callEnd calls callId chatId fromId =
      (calls, [⟨.roomOthers chatId, "call_ended", none⟩]) := by
  refine ⟨rfl, ?_, ?_⟩
  · unfold callResponse
    cases accepted <;> simp [hunknown]
  · unfold callEnd
    have hfix : calls.filter (fun p => p.1 ≠ callId) = calls := by
      apply List.filter_eq_self.mpr
      intro p hp
      simpa using assocGet_none_not_mem calls callId hunknown p hp
    rw [hfix]

/-- C4 witness: the amended theorem at a table that does not know call 99. -/
theorem C4_unknown_call_witness :
    callEnd ([(1, ⟨1, "video", 4, [4], 100⟩)] : List (Nat × CallSession)) 99 1 4 =
      ([(1, ⟨1, "video", 4, [4], 100⟩)],
       [⟨.roomOthers 1, "call_ended", none⟩]) :=
  (C4_unknown_call_still_forwarded [(1, ⟨1, "video", 4, [4], 100⟩)]
      "webrtc_offer" 99 1 2 4 true (by decide)).2.2

/-! ## Claim C8 -/

/-- C8 (counterexample): identity 5 is already in chat 1's typing set, yet
a further typing_start still broadcasts `typing_start` to the room
(socketHandler.js lines 317–331 emit unconditionally) — the claim says no
additional broadcast happens when the identity is already marked typing. -/
theorem C8_counterexample :
    (typingSetOf [(1, [5])] 1).contains 5 = true ∧
    (typingStart [(1, [5])] 1 5).2 =
      [⟨.roomOthers 1, "typing_start", none⟩] := by
  constructor
  · rfl
  · rfl

theorem mem_addTyping (typing : List (Nat × List Nat)) (c u : Nat) :
    (typingSetOf (addTyping typing c u) c).contains u = true := by
  induction typing with
  | nil => simp [addTyping, typingSetOf, assocGet]
  | cons a rest ih =>
      obtain ⟨c', s⟩ := a
      by_cases hc : c' = c
      · subst hc
        by_cases hu : u ∈ s <;>
          simp [addTyping, typingSetOf, assocGet, hu]
      · simp only [addTyping, if_neg hc]
        simpa [typingSetOf, assocGet, hc] using ih

/-- C8 (amended): a typing_start from identity `u` in chat `c` always
broadcasts a typing-start notification to the other Room subscribers of
`c`, whether or not `u` is already in `c`'s typing set (there is no
already-typing guard and no per-entry idle timer; a periodic sweep only
evicts typing users who have disconnected); afterwards `u` is in the
typing set. -/
theorem C8_typing_start_always_broadcasts
    (typing : List (Nat × List Nat)) (chatId userId : Nat) :
    (typingStart typing chatId userId).2 =
      [⟨.roomOthers chatId, "typing_start", none⟩] ∧
    (typingSetOf (typingStart typing chatId userId).1 chatId).contains userId = true :=
  ⟨rfl, mem_addTyping typing chatId userId⟩

end ChatMaster
